import Mathlib

/-!
Verification of the embedding-to-ranking pipeline of `codegen_query.py`.

The source computes cosine similarity with numpy floats and ranks a corpus
of (file_path, embedding) records.  We embed the numeric code over the real
numbers.  Two float-specific behaviours of the source are made explicit:

* `np.dot` on one-dimensional arrays of different lengths raises a
  `ValueError`; this is modelled with `Except.error`, which propagates out of
  the scoring loop exactly as an uncaught Python exception would.
* when either vector has zero magnitude the float division `0.0 / 0.0`
  yields IEEE NaN; an undefined score is modelled as `none : Option ℝ`,
  while a defined score is `some s`.

`scores.sort(key=lambda x: x[1], reverse=True)` is the CPython stable sort,
descending by score, keeping the original order among equal keys.  For keys
that are totally ordered (all scores defined) every stable descending sort
computes the same list, so it is modelled by a stable insertion sort whose
comparison `optLt` is the Python float `<` (comparisons against NaN are
false).
-/

namespace CodegenQuery

/-- Sum of squares of the entries of a vector; `np.linalg.norm` is its
square root. -/
def sumSq : List ℝ → ℝ
  | [] => 0
  | x :: xs => x ^ 2 + sumSq xs

/-- Model of `np.linalg.norm(v)` for a one-dimensional array: the Euclidean norm. -/
noncomputable def pynorm (v : List ℝ) : ℝ := Real.sqrt (sumSq v)

/-- Model of `np.dot(a, b)` for one-dimensional arrays of equal length: the sum of
pairwise products.  (Callers guard the equal-length requirement; on
mismatched lengths `np.dot` raises, modelled in `cosine_similarity`.) -/
def dot : List ℝ → List ℝ → ℝ
  | x :: xs, y :: ys => x * y + dot xs ys
  | _, _ => 0

open Classical in
/-- The value of `np.dot(a, b) / (np.linalg.norm(a) * np.linalg.norm(b))`
for equal-length arrays: when the product of norms is zero the numerator is
zero as well and the float division yields NaN, modelled as `none`. -/
noncomputable def simVal (a b : List ℝ) : Option ℝ :=
  if pynorm a * pynorm b = 0 then none
  else some (dot a b / (pynorm a * pynorm b))

/-- Model of `cosine_similarity(a, b)` from the source.  `np.dot` raises a
`ValueError` when the one-dimensional arrays have different lengths, which
aborts the computation: modelled as `Except.error`. -/
noncomputable def cosine_similarity (a b : List ℝ) : Except String (Option ℝ) :=
  if a.length = b.length then Except.ok (simVal a b)
  else Except.error "shapes not aligned"

/-- The scoring loop of `find_relevant_files`: builds
`(file_path, score)` pairs in corpus order; an exception from
`cosine_similarity` aborts the whole loop. -/
noncomputable def scoreItems (q : List ℝ) :
    List (String × List ℝ) → Except String (List (String × Option ℝ))
  | [] => Except.ok []
  | item :: rest =>
    match cosine_similarity q item.2 with
    | Except.error e => Except.error e
    | Except.ok s =>
      match scoreItems q rest with
      | Except.error e => Except.error e
      | Except.ok tail => Except.ok ((item.1, s) :: tail)

/-- Python float `<` on score keys: comparisons involving NaN (`none`) are
always false. -/
def optLt : Option ℝ → Option ℝ → Prop
  | some x, some y => x < y
  | _, _ => False

open Classical in
/-- Insert a pair into a descending-sorted list of scored pairs: the new
pair moves past exactly the strictly greater keys, so among equal keys the
earlier element stays first (stability). -/
noncomputable def insertDesc (p : String × Option ℝ) :
    List (String × Option ℝ) → List (String × Option ℝ)
  | [] => [p]
  | q :: qs => if optLt p.2 q.2 then q :: insertDesc p qs else p :: q :: qs

/-- Model of `scores.sort(key=lambda x: x[1], reverse=True)`: the stable descending
sort by score, modelled as stable insertion sort (it agrees with every
stable descending sort whenever the keys are totally ordered). -/
noncomputable def insertionSortDesc :
    List (String × Option ℝ) → List (String × Option ℝ)
  | [] => []
  | x :: xs => insertDesc x (insertionSortDesc xs)

/-- The Python slice `l[:limit]` for an `int` limit: a nonnegative limit
keeps the first `min(limit, len(l))` elements; a negative limit drops the
last `|limit|` elements (clamped at the empty list). -/
def pyTake (limit : ℤ) (l : List α) : List α :=
  if 0 ≤ limit then l.take limit.toNat
  else l.take (l.length - (-limit).toNat)

/-- Model of `find_relevant_files(query_embedding, embeddings, limit)`: score every
record in corpus order, sort descending by score, return the slice
`scores[:limit]`.  A `ValueError` from `np.dot` propagates out. -/
noncomputable def find_relevant_files (q : List ℝ)
    (embeddings : List (String × List ℝ)) (limit : ℤ) :
    Except String (List (String × Option ℝ)) :=
  match scoreItems q embeddings with
  | Except.error e => Except.error e
  | Except.ok scores => Except.ok (pyTake limit (insertionSortDesc scores))

open Classical in
/-- The subsequence of scored pairs whose score equals a given key, in list
order; used to state stability of the sort. -/
noncomputable def keyFilter (v : Option ℝ) :
    List (String × Option ℝ) → List (String × Option ℝ)
  | [] => []
  | p :: ps => if p.2 = v then p :: keyFilter v ps else keyFilter v ps

/-- The Python test `query_text.endswith(suffix)`, modelled on the
character sequences of the two strings. -/
def pyEndsWith (s suffix : String) : Bool :=
  suffix.data.isSuffixOf s.data

/-- The query-resolution step at the top of `generate_query_embedding`
(lines 26 to 29 of the source): a query string ending in ".txt" is replaced
by the contents of the file at that path (an unreadable file raises an
uncaught `IOError`, modelled as `Except.error`); any other string passes
through as literal text without touching the file system, which is passed
explicitly as a partial map from paths to contents. -/
def resolve_query_text (readFile : String → Option String)
    (query_text : String) : Except String String :=
  if pyEndsWith query_text ".txt" then
    match readFile query_text with
    | some content => Except.ok content
    | none => Except.error "could not read query file"
  else Except.ok query_text

/-- Descending comparison between two defined scores, used to state the
ordering of the ranked output. -/
def scoreGe (p q : Option ℝ) : Prop :=
  ∃ x y, p = some x ∧ q = some y ∧ y ≤ x

/-! ### Basic numeric lemmas -/

theorem sumSq_nonneg (v : List ℝ) : 0 ≤ sumSq v := by
  induction v with
  | nil => simp [sumSq]
  | cons x xs ih => simp only [sumSq]; positivity

theorem pynorm_nonneg (v : List ℝ) : 0 ≤ pynorm v := Real.sqrt_nonneg _

theorem pynorm_eq_zero_iff (v : List ℝ) : pynorm v = 0 ↔ sumSq v = 0 := by
  unfold pynorm
  rw [Real.sqrt_eq_zero (sumSq_nonneg v)]

theorem dot_self (v : List ℝ) : dot v v = sumSq v := by
  induction v with
  | nil => simp [dot, sumSq]
  | cons x xs ih => simp [dot, sumSq, ih]; ring

/-- Cauchy-Schwarz for the list dot product. -/
theorem dot_sq_le (a b : List ℝ) : (dot a b) ^ 2 ≤ sumSq a * sumSq b := by
  induction a generalizing b with
  | nil =>
    cases b <;> simp [dot, sumSq]
  | cons x xs ih =>
    cases b with
    | nil => simp [dot, sumSq]
    | cons y ys =>
      have h := ih ys
      have hA := sumSq_nonneg xs
      have hB := sumSq_nonneg ys
      simp only [dot, sumSq]
      rcases eq_or_lt_of_le hB with hq | hq
      · rw [← hq] at h ⊢
        have h2 : dot xs ys ^ 2 = 0 := le_antisymm (by nlinarith) (sq_nonneg _)
        have hd : dot xs ys = 0 := sq_eq_zero_iff.mp h2
        rw [hd]
        nlinarith [mul_nonneg hA (sq_nonneg y)]
      · nlinarith [sq_nonneg (x * sumSq ys - y * dot xs ys),
          mul_nonneg (add_nonneg (sq_nonneg y) hB) (sub_nonneg.mpr h), hq]

theorem abs_dot_le (a b : List ℝ) : |dot a b| ≤ pynorm a * pynorm b := by
  have hm : 0 ≤ pynorm a * pynorm b :=
    mul_nonneg (pynorm_nonneg a) (pynorm_nonneg b)
  have hsq : (dot a b) ^ 2 ≤ (pynorm a * pynorm b) ^ 2 := by
    have : (pynorm a * pynorm b) ^ 2 = sumSq a * sumSq b := by
      rw [mul_pow]
      unfold pynorm
      rw [Real.sq_sqrt (sumSq_nonneg a), Real.sq_sqrt (sumSq_nonneg b)]
    rw [this]; exact dot_sq_le a b
  nlinarith [abs_nonneg (dot a b), sq_abs (dot a b)]

/-! ### Structural lemmas about the scoring loop, the sort and the slice -/

theorem optLt_irrefl (v : Option ℝ) : ¬ optLt v v := by
  cases v with
  | none => simp [optLt]
  | some x => simp [optLt]

theorem scoreItems_eq_map (q : List ℝ) (corpus : List (String × List ℝ))
    (hdim : ∀ it ∈ corpus, (it.2).length = q.length) :
    scoreItems q corpus =
      Except.ok (corpus.map fun it => (it.1, simVal q it.2)) := by
  induction corpus with
  | nil => simp [scoreItems]
  | cons item rest ih =>
    have hlen : q.length = (item.2).length :=
      (hdim item (List.mem_cons_self _ _)).symm
    have hrest := ih fun it hit => hdim it (List.mem_cons_of_mem _ hit)
    simp [scoreItems, cosine_similarity, hlen, hrest]

theorem mem_insertDesc (p r : String × Option ℝ)
    (l : List (String × Option ℝ)) :
    r ∈ insertDesc p l ↔ r = p ∨ r ∈ l := by
  induction l with
  | nil => simp [insertDesc]
  | cons q qs ih =>
    by_cases hlt : optLt p.2 q.2
    · simp only [insertDesc, if_pos hlt, List.mem_cons, ih]
      tauto
    · simp only [insertDesc, if_neg hlt, List.mem_cons]

theorem insertDesc_length (p : String × Option ℝ)
    (l : List (String × Option ℝ)) :
    (insertDesc p l).length = l.length + 1 := by
  induction l with
  | nil => simp [insertDesc]
  | cons q qs ih =>
    by_cases hlt : optLt p.2 q.2
    · simp [insertDesc, if_pos hlt, ih]
    · simp [insertDesc, if_neg hlt]

theorem insertionSortDesc_length (l : List (String × Option ℝ)) :
    (insertionSortDesc l).length = l.length := by
  induction l with
  | nil => simp [insertionSortDesc]
  | cons x xs ih => simp [insertionSortDesc, insertDesc_length, ih]

theorem mem_insertionSortDesc (r : String × Option ℝ)
    (l : List (String × Option ℝ)) :
    r ∈ insertionSortDesc l ↔ r ∈ l := by
  induction l with
  | nil => simp [insertionSortDesc]
  | cons x xs ih => simp [insertionSortDesc, mem_insertDesc, ih]

theorem insertDesc_nil (p : String × Option ℝ) : insertDesc p [] = [p] := by
  simp [insertDesc]

theorem insertDesc_cons_of_lt (p q : String × Option ℝ)
    (qs : List (String × Option ℝ)) (h : optLt p.2 q.2) :
    insertDesc p (q :: qs) = q :: insertDesc p qs := by
  simp only [insertDesc, if_pos h]

theorem insertDesc_cons_of_not_lt (p q : String × Option ℝ)
    (qs : List (String × Option ℝ)) (h : ¬ optLt p.2 q.2) :
    insertDesc p (q :: qs) = p :: q :: qs := by
  simp only [insertDesc, if_neg h]

/-- The inserted pair lands after exactly a block of strictly greater keys. -/
theorem insertDesc_split (p : String × Option ℝ)
    (l : List (String × Option ℝ)) :
    ∃ l₁ l₂, l = l₁ ++ l₂ ∧ insertDesc p l = l₁ ++ p :: l₂ ∧
      ∀ q ∈ l₁, optLt p.2 q.2 := by
  induction l with
  | nil => exact ⟨[], [], by simp [insertDesc]⟩
  | cons q qs ih =>
    by_cases hlt : optLt p.2 q.2
    · obtain ⟨l₁, l₂, hl, hins, hgt⟩ := ih
      refine ⟨q :: l₁, l₂, by simp [hl], ?_, ?_⟩
      · simp [insertDesc, if_pos hlt, hins]
      · intro r hr
        rcases List.mem_cons.mp hr with h | h
        · exact h ▸ hlt
        · exact hgt r h
    · exact ⟨[], q :: qs, rfl, by simp [insertDesc, if_neg hlt], by simp⟩

theorem keyFilter_append (v : Option ℝ) (l₁ l₂ : List (String × Option ℝ)) :
    keyFilter v (l₁ ++ l₂) = keyFilter v l₁ ++ keyFilter v l₂ := by
  induction l₁ with
  | nil => simp [keyFilter]
  | cons p ps ih =>
    by_cases hp : p.2 = v
    · simp [keyFilter, hp, ih]
    · simp [keyFilter, hp, ih]

theorem keyFilter_eq_nil (v : Option ℝ) (l : List (String × Option ℝ))
    (h : ∀ q ∈ l, q.2 ≠ v) : keyFilter v l = [] := by
  induction l with
  | nil => simp [keyFilter]
  | cons p ps ih =>
    have hp := h p (List.mem_cons_self _ _)
    simp [keyFilter, hp, ih fun q hq => h q (List.mem_cons_of_mem _ hq)]

/-- Inserting moves the new pair past no pair with an equal key. -/
theorem keyFilter_insertDesc (v : Option ℝ) (p : String × Option ℝ)
    (l : List (String × Option ℝ)) :
    keyFilter v (insertDesc p l) = keyFilter v (p :: l) := by
  obtain ⟨l₁, l₂, hl, hins, hgt⟩ := insertDesc_split p l
  have hne : ∀ q ∈ l₁, q.2 ≠ p.2 := by
    intro q hq hqe
    exact optLt_irrefl p.2 (hqe ▸ hgt q hq)
  by_cases hp : p.2 = v
  · have h1 : keyFilter v l₁ = [] :=
      keyFilter_eq_nil v l₁ fun q hq => hp ▸ hne q hq
    rw [hins, hl]
    simp [keyFilter_append, h1, keyFilter, hp]
  · rw [hins, hl]
    simp [keyFilter_append, keyFilter, hp]

/-- Stability of the sort: the subsequence at any fixed score key is
unchanged. -/
theorem keyFilter_insertionSortDesc (v : Option ℝ)
    (l : List (String × Option ℝ)) :
    keyFilter v (insertionSortDesc l) = keyFilter v l := by
  induction l with
  | nil => simp [insertionSortDesc]
  | cons x xs ih =>
    rw [insertionSortDesc, keyFilter_insertDesc]
    by_cases hx : x.2 = v
    · simp [keyFilter, hx, ih]
    · simp [keyFilter, hx, ih]

theorem sorted_insertDesc (p : String × Option ℝ)
    (l : List (String × Option ℝ)) (hp : ∃ x, p.2 = some x)
    (hall : ∀ r ∈ l, ∃ x, r.2 = some x)
    (hsort : l.Pairwise fun a b => scoreGe a.2 b.2) :
    (insertDesc p l).Pairwise fun a b => scoreGe a.2 b.2 := by
  induction l with
  | nil => simp [insertDesc]
  | cons q qs ih =>
    obtain ⟨px, hpx⟩ := hp
    obtain ⟨qx, hqx⟩ := hall q (List.mem_cons_self _ _)
    rw [List.pairwise_cons] at hsort
    obtain ⟨hq, hqs⟩ := hsort
    by_cases hlt : optLt p.2 q.2
    · rw [insertDesc, if_pos hlt]
      rw [List.pairwise_cons]
      constructor
      · intro r hr
        rcases (mem_insertDesc p r qs).mp hr with h | h
        · subst h
          refine ⟨qx, px, hqx, hpx, ?_⟩
          rw [hpx, hqx] at hlt
          exact le_of_lt hlt
        · exact hq r h
      · exact ih (fun r hr => hall r (List.mem_cons_of_mem _ hr)) hqs
    · rw [insertDesc, if_neg hlt]
      rw [List.pairwise_cons]
      constructor
      · intro r hr
        rcases List.mem_cons.mp hr with h | h
        · subst h
          refine ⟨px, qx, hpx, hqx, ?_⟩
          rw [hpx, hqx] at hlt
          exact le_of_not_lt fun hc => hlt (by simpa [optLt] using hc)
        · obtain ⟨qy, ry, hqy, hry, hle⟩ := hq r h
          refine ⟨px, ry, hpx, hry, ?_⟩
          rw [hpx, hqx] at hlt
          have hqp : qx ≤ px := le_of_not_lt fun hc => hlt (by simpa [optLt] using hc)
          rw [hqx] at hqy
          have hqq : qx = qy := Option.some.inj hqy
          exact le_trans (hqq ▸ hle) hqp
      · rw [List.pairwise_cons]
        exact ⟨hq, hqs⟩

/-- The sort produces a descending list whenever every score is defined. -/
theorem sorted_insertionSortDesc (l : List (String × Option ℝ))
    (hall : ∀ r ∈ l, ∃ x, r.2 = some x) :
    (insertionSortDesc l).Pairwise fun a b => scoreGe a.2 b.2 := by
  induction l with
  | nil => simp [insertionSortDesc]
  | cons x xs ih =>
    rw [insertionSortDesc]
    refine sorted_insertDesc x _ (hall x (List.mem_cons_self _ _)) ?_ ?_
    · intro r hr
      exact hall r (List.mem_cons_of_mem _
        ((mem_insertionSortDesc r xs).mp hr))
    · exact ih fun r hr => hall r (List.mem_cons_of_mem _ hr)

/-- The Python slice is always a prefix-taking operation. -/
theorem pyTake_eq_take (limit : ℤ) (l : List α) :
    ∃ n, pyTake limit l = l.take n := by
  unfold pyTake
  by_cases h : 0 ≤ limit
  · exact ⟨limit.toNat, by rw [if_pos h]⟩
  · exact ⟨l.length - (-limit).toNat, by rw [if_neg h]⟩

theorem pyTake_length_of_nonneg (limit : ℤ) (hl : 0 ≤ limit) (l : List α) :
    (pyTake limit l).length = min limit.toNat l.length := by
  unfold pyTake
  rw [if_pos hl, List.length_take]

theorem pynorm_pos (v : List ℝ) (hv : pynorm v ≠ 0) : 0 < pynorm v :=
  lt_of_le_of_ne (pynorm_nonneg v) (Ne.symm hv)

/-! ### Claim theorems -/

/-- C7: for every pair of equal-length vectors of non-zero magnitude, the
cosine similarity is a defined score lying in the closed interval from -1
to 1. -/
theorem c7_cosine_bound (a b : List ℝ) (hlen : a.length = b.length)
    (ha : pynorm a ≠ 0) (hb : pynorm b ≠ 0) :
    ∃ s, cosine_similarity a b = Except.ok (some s) ∧ -1 ≤ s ∧ s ≤ 1 := by
  have hm : 0 < pynorm a * pynorm b :=
    mul_pos (pynorm_pos a ha) (pynorm_pos b hb)
  have habs := abs_le.mp (abs_dot_le a b)
  refine ⟨dot a b / (pynorm a * pynorm b), ?_, ?_, ?_⟩
  · rw [cosine_similarity, if_pos hlen, simVal, if_neg (ne_of_gt hm)]
  · rw [le_div_iff₀ hm]
    linarith [habs.1]
  · rw [div_le_one hm]
    exact habs.2

/-- Witness for C7 at the concrete pair [1, 0] and [0, 1]. -/
theorem c7_cosine_bound_witness :
    ([1, 0] : List ℝ).length = ([0, 1] : List ℝ).length ∧
    pynorm [1, 0] ≠ 0 ∧ pynorm [0, 1] ≠ 0 ∧
    ∃ s, cosine_similarity [1, 0] [0, 1] = Except.ok (some s) ∧
      -1 ≤ s ∧ s ≤ 1 := by
  have h1 : pynorm ([1, 0] : List ℝ) ≠ 0 := by
    rw [Ne, pynorm_eq_zero_iff]
    norm_num [sumSq]
  have h2 : pynorm ([0, 1] : List ℝ) ≠ 0 := by
    rw [Ne, pynorm_eq_zero_iff]
    norm_num [sumSq]
  exact ⟨rfl, h1, h2, c7_cosine_bound _ _ rfl h1 h2⟩

/-- C8: the cosine similarity of any non-zero vector with itself is exactly
1 in the real-valued model (the claim allows a floating-point tolerance,
which the exact value satisfies). -/
theorem c8_self_similarity (v : List ℝ) (hv : pynorm v ≠ 0) :
    cosine_similarity v v = Except.ok (some 1) := by
  have hm : pynorm v * pynorm v ≠ 0 := mul_ne_zero hv hv
  have hss : sumSq v ≠ 0 := (pynorm_eq_zero_iff v).not.mp hv
  rw [cosine_similarity, if_pos rfl, simVal, if_neg hm]
  have hmul : pynorm v * pynorm v = sumSq v := by
    rw [pynorm, Real.mul_self_sqrt (sumSq_nonneg v)]
  rw [dot_self, hmul, div_self hss]

/-- Witness for C8 at the concrete vector [3, 4]. -/
theorem c8_self_similarity_witness :
    pynorm ([3, 4] : List ℝ) ≠ 0 ∧
    cosine_similarity [3, 4] [3, 4] = Except.ok (some 1) := by
  have h1 : pynorm ([3, 4] : List ℝ) ≠ 0 := by
    rw [Ne, pynorm_eq_zero_iff]
    norm_num [sumSq]
  exact ⟨h1, c8_self_similarity _ h1⟩

/-- C1: the code does not handle a zero-magnitude corpus vector: on the
corpus containing only a zero vector, the float division yields an
undefined (NaN) score, modelled `none`, and the record is returned in the
results with that score, neither excluded nor turned into an error. -/
theorem c1_zero_vector_nan_in_results :
    find_relevant_files [1] [("z.py", [0])] 5 =
      Except.ok [("z.py", (none : Option ℝ))] := by
  have h0 : pynorm ([0] : List ℝ) = 0 := by
    rw [pynorm]
    norm_num [sumSq]
  have hz : pynorm ([1] : List ℝ) * pynorm ([0] : List ℝ) = 0 := by
    rw [h0, mul_zero]
  simp [find_relevant_files, scoreItems, cosine_similarity, simVal, hz,
    insertionSortDesc, insertDesc, pyTake]

/-- C3 counterexample: the claim quantifies over every integer limit, but
for the negative limit -1 the Python slice drops the last entry, so the
result has length 0 while min(limit, corpus size) is -1. -/
theorem c3_negative_limit_counterexample :
    find_relevant_files [1] [("a.py", [1])] (-1) = Except.ok [] ∧
    ¬ ((0 : ℤ) = min (-1 : ℤ) 1) := by
  constructor
  · have h1 : sumSq ([1] : List ℝ) = 1 := by norm_num [sumSq]
    have hn : pynorm ([1] : List ℝ) = 1 := by rw [pynorm, h1, Real.sqrt_one]
    have hz : pynorm ([1] : List ℝ) * pynorm ([1] : List ℝ) ≠ 0 := by
      rw [hn]
      norm_num
    simp [find_relevant_files, scoreItems, cosine_similarity, simVal, hz,
      insertionSortDesc, insertDesc, pyTake]
  · decide

/-- C3 (amended to nonnegative limits): whenever every corpus vector
matches the query dimension and the limit is nonnegative, the pipeline
succeeds and returns exactly min(limit, corpus size) entries; in
particular a limit beyond the corpus size returns the whole sorted corpus
with no error and no padding. -/
theorem c3_result_length (q : List ℝ) (corpus : List (String × List ℝ))
    (limit : ℤ) (hl : 0 ≤ limit)
    (hdim : ∀ it ∈ corpus, (it.2).length = q.length) :
    ∃ res, find_relevant_files q corpus limit = Except.ok res ∧
      res.length = min limit.toNat corpus.length := by
  rw [find_relevant_files, scoreItems_eq_map q corpus hdim]
  refine ⟨_, rfl, ?_⟩
  rw [pyTake_length_of_nonneg _ hl, insertionSortDesc_length, List.length_map]

/-- Witness for the amended C3: a corpus of three records with limit 10
yields exactly three results. -/
theorem c3_result_length_witness :
    (0 : ℤ) ≤ 10 ∧
    (∀ it ∈ ([("a.py", [2]), ("b.py", [3]), ("c.py", [4])] :
        List (String × List ℝ)),
      (it.2).length = ([1] : List ℝ).length) ∧
    ∃ res, find_relevant_files [1]
        [("a.py", [2]), ("b.py", [3]), ("c.py", [4])] 10 = Except.ok res ∧
      res.length = min (10 : ℤ).toNat
        ([("a.py", [2]), ("b.py", [3]), ("c.py", [4])] :
          List (String × List ℝ)).length := by
  have hdim : ∀ it ∈ ([("a.py", [2]), ("b.py", [3]), ("c.py", [4])] :
      List (String × List ℝ)),
      (it.2).length = ([1] : List ℝ).length := by
    intro it hit
    fin_cases hit <;> rfl
  exact ⟨by norm_num, hdim, c3_result_length [1] _ 10 (by norm_num) hdim⟩

/-- C5: a corpus record whose vector length differs from the query length
makes `np.dot` raise, the uncaught exception aborts the whole run, and no
result list is produced. -/
theorem c5_dim_mismatch_aborts (q : List ℝ) (corpus : List (String × List ℝ))
    (limit : ℤ) (h : ∃ it ∈ corpus, (it.2).length ≠ q.length) :
    ∃ e, find_relevant_files q corpus limit = Except.error e := by
  suffices hs : ∃ e, scoreItems q corpus = Except.error e by
    obtain ⟨e, he⟩ := hs
    exact ⟨e, by rw [find_relevant_files, he]⟩
  induction corpus with
  | nil =>
    obtain ⟨it, hit, _⟩ := h
    simp at hit
  | cons item rest ih =>
    by_cases hitem : q.length = (item.2).length
    · obtain ⟨it, hit, hne⟩ := h
      rcases List.mem_cons.mp hit with heq | hmem
      · exact absurd hitem.symm (heq ▸ hne)
      · obtain ⟨e, he⟩ := ih ⟨it, hmem, hne⟩
        exact ⟨e, by simp [scoreItems, cosine_similarity, hitem, he]⟩
    · exact ⟨"shapes not aligned",
        by simp [scoreItems, cosine_similarity, hitem]⟩

/-- Witness for C5: a two-entry vector against a one-entry query aborts. -/
theorem c5_dim_mismatch_aborts_witness :
    (∃ it ∈ ([("a.py", [1, 2])] : List (String × List ℝ)),
      (it.2).length ≠ ([1] : List ℝ).length) ∧
    ∃ e, find_relevant_files [1] [("a.py", [1, 2])] 5 = Except.error e := by
  have h : ∃ it ∈ [("a.py", ([1, 2] : List ℝ))],
      (it.2).length ≠ ([1] : List ℝ).length :=
    ⟨("a.py", [1, 2]), by simp, by simp⟩
  exact ⟨h, c5_dim_mismatch_aborts [1] _ 5 h⟩

/-- C6: on a well-formed corpus (matching dimensions) whose scores are all
defined (no zero-magnitude vector, the regime in which the float sort is a
total-order sort), the returned sequence is ordered by score in descending
order: every score is greater than or equal to the one that follows. -/
theorem c6_descending (q : List ℝ) (corpus : List (String × List ℝ))
    (limit : ℤ) (hdim : ∀ it ∈ corpus, (it.2).length = q.length)
    (hq : pynorm q ≠ 0) (hnz : ∀ it ∈ corpus, pynorm it.2 ≠ 0) :
    ∃ res, find_relevant_files q corpus limit = Except.ok res ∧
      res.Pairwise fun a b => scoreGe a.2 b.2 := by
  rw [find_relevant_files, scoreItems_eq_map q corpus hdim]
  refine ⟨_, rfl, ?_⟩
  have hall : ∀ r ∈ corpus.map fun it => (it.1, simVal q it.2),
      ∃ x, r.2 = some x := by
    intro r hr
    obtain ⟨it, hit, hre⟩ := List.mem_map.mp hr
    have hm : pynorm q * pynorm it.2 ≠ 0 := mul_ne_zero hq (hnz it hit)
    exact ⟨_, by rw [← hre, simVal, if_neg hm]⟩
  have hsorted := sorted_insertionSortDesc _ hall
  obtain ⟨n, hn⟩ := pyTake_eq_take limit
    (insertionSortDesc (corpus.map fun it => (it.1, simVal q it.2)))
  rw [hn]
  exact List.Pairwise.sublist (List.take_sublist n _) hsorted

/-- Witness for C6 at a concrete two-record corpus. -/
theorem c6_descending_witness :
    (∀ it ∈ ([("a.py", [2]), ("b.py", [3])] : List (String × List ℝ)),
      (it.2).length = ([1] : List ℝ).length) ∧
    pynorm [1] ≠ 0 ∧
    (∀ it ∈ ([("a.py", [2]), ("b.py", [3])] : List (String × List ℝ)),
      pynorm it.2 ≠ 0) ∧
    ∃ res, find_relevant_files [1] [("a.py", [2]), ("b.py", [3])] 5 =
        Except.ok res ∧
      res.Pairwise fun a b => scoreGe a.2 b.2 := by
  have hdim : ∀ it ∈ ([("a.py", [2]), ("b.py", [3])] : List (String × List ℝ)),
      (it.2).length = ([1] : List ℝ).length := by
    intro it hit
    fin_cases hit <;> rfl
  have hq : pynorm ([1] : List ℝ) ≠ 0 := by
    rw [Ne, pynorm_eq_zero_iff]
    norm_num [sumSq]
  have hnz : ∀ it ∈ [("a.py", ([2] : List ℝ)), ("b.py", [3])],
      pynorm it.2 ≠ 0 := by
    intro it hit
    fin_cases hit <;>
      · rw [Ne, pynorm_eq_zero_iff]
        norm_num [sumSq]
  exact ⟨hdim, hq, hnz, c6_descending [1] _ 5 hdim hq hnz⟩

/-- C4: on a well-formed corpus with all scores defined (the regime in
which the float sort is a stable total-order sort), the subsequence of the
output at any fixed score value is a prefix of the subsequence of the
corpus-order scored list at that value: records with identical scores keep
their original corpus order in the result. -/
theorem c4_tie_stability (q : List ℝ) (corpus : List (String × List ℝ))
    (limit : ℤ) (hdim : ∀ it ∈ corpus, (it.2).length = q.length)
    (_hq : pynorm q ≠ 0) (_hnz : ∀ it ∈ corpus, pynorm it.2 ≠ 0) :
    ∃ scores res, scoreItems q corpus = Except.ok scores ∧
      find_relevant_files q corpus limit = Except.ok res ∧
      ∀ v, ∃ t, keyFilter v scores = keyFilter v res ++ t := by
  have hmap := scoreItems_eq_map q corpus hdim
  refine ⟨corpus.map fun it => (it.1, simVal q it.2),
    pyTake limit (insertionSortDesc (corpus.map fun it => (it.1, simVal q it.2))),
    hmap, by rw [find_relevant_files, hmap], ?_⟩
  intro v
  obtain ⟨n, hn⟩ := pyTake_eq_take limit
    (insertionSortDesc (corpus.map fun it => (it.1, simVal q it.2)))
  rw [hn]
  refine ⟨keyFilter v ((insertionSortDesc
    (corpus.map fun it => (it.1, simVal q it.2))).drop n), ?_⟩
  rw [← keyFilter_append, List.take_append_drop, keyFilter_insertionSortDesc]

/-- Witness for C4 at a two-record corpus with identical vectors, hence
identical scores. -/
theorem c4_tie_stability_witness :
    (∀ it ∈ ([("a.py", [2]), ("b.py", [2])] : List (String × List ℝ)),
      (it.2).length = ([1] : List ℝ).length) ∧
    pynorm [1] ≠ 0 ∧
    (∀ it ∈ ([("a.py", [2]), ("b.py", [2])] : List (String × List ℝ)),
      pynorm it.2 ≠ 0) ∧
    ∃ scores res, scoreItems [1] [("a.py", [2]), ("b.py", [2])] =
        Except.ok scores ∧
      find_relevant_files [1] [("a.py", [2]), ("b.py", [2])] 5 =
        Except.ok res ∧
      ∀ v, ∃ t, keyFilter v scores = keyFilter v res ++ t := by
  have hdim : ∀ it ∈ ([("a.py", [2]), ("b.py", [2])] : List (String × List ℝ)),
      (it.2).length = ([1] : List ℝ).length := by
    intro it hit
    fin_cases hit <;> rfl
  have hq : pynorm ([1] : List ℝ) ≠ 0 := by
    rw [Ne, pynorm_eq_zero_iff]
    norm_num [sumSq]
  have hnz : ∀ it ∈ [("a.py", ([2] : List ℝ)), ("b.py", [2])],
      pynorm it.2 ≠ 0 := by
    intro it hit
    fin_cases hit <;>
      · rw [Ne, pynorm_eq_zero_iff]
        norm_num [sumSq]
  exact ⟨hdim, hq, hnz, c4_tie_stability [1] _ 5 hdim hq hnz⟩

/-- C2: on the literal corpus of the spec and query [1, 0] with limit 2,
the pipeline returns a.py with score exactly 1 followed by c.py with a
score within 0.001 of 0.994, and nothing else. -/
theorem c2_literal_ranking :
    ∃ s, find_relevant_files [1, 0]
        [("a.py", [1, 0]), ("b.py", [0, 1]), ("c.py", [9/10, 1/10])] 2 =
      Except.ok [("a.py", some 1), ("c.py", some s)] ∧
      |s - 994/1000| < 1/1000 := by
  have hcpos : (0 : ℝ) < Real.sqrt (82/100) := Real.sqrt_pos.mpr (by norm_num)
  have hclt : (9/10 : ℝ) < Real.sqrt (82/100) :=
    (Real.lt_sqrt (by norm_num)).mpr (by norm_num)
  have hub : Real.sqrt (82/100) < 90554/100000 :=
    (Real.sqrt_lt' (by norm_num)).mpr (by norm_num)
  have hlb : (90553/100000 : ℝ) < Real.sqrt (82/100) :=
    (Real.lt_sqrt (by norm_num)).mpr (by norm_num)
  have hscpos : (0 : ℝ) < 9/10 / Real.sqrt (82/100) :=
    div_pos (by norm_num) hcpos
  have hlt1 : (9/10 : ℝ) / Real.sqrt (82/100) < 1 :=
    (div_lt_one hcpos).mpr hclt
  have h10 : sumSq ([1, 0] : List ℝ) = 1 := by norm_num [sumSq]
  have hna : pynorm ([1, 0] : List ℝ) = 1 := by rw [pynorm, h10, Real.sqrt_one]
  have h01 : sumSq ([0, 1] : List ℝ) = 1 := by norm_num [sumSq]
  have hnb : pynorm ([0, 1] : List ℝ) = 1 := by rw [pynorm, h01, Real.sqrt_one]
  have hcsum : sumSq ([9/10, 1/10] : List ℝ) = 82/100 := by norm_num [sumSq]
  have hnc : pynorm ([9/10, 1/10] : List ℝ) = Real.sqrt (82/100) := by
    rw [pynorm, hcsum]
  have hsa : simVal [1, 0] [1, 0] = some 1 := by
    rw [simVal, if_neg (show ¬(pynorm ([1, 0] : List ℝ) * pynorm [1, 0] = 0)
      by rw [hna]; norm_num)]
    rw [hna]
    norm_num [dot]
  have hsb : simVal [1, 0] [0, 1] = some 0 := by
    rw [simVal, if_neg (show ¬(pynorm ([1, 0] : List ℝ) * pynorm [0, 1] = 0)
      by rw [hna, hnb]; norm_num)]
    rw [hna, hnb]
    norm_num [dot]
  have hsc : simVal [1, 0] [9/10, 1/10] =
      some (9/10 / Real.sqrt (82/100)) := by
    rw [simVal, if_neg (show
      ¬(pynorm ([1, 0] : List ℝ) * pynorm [9/10, 1/10] = 0)
      by rw [hna, hnc, one_mul]; exact ne_of_gt hcpos)]
    rw [hna, hnc]
    norm_num [dot]
  have hdim : ∀ it ∈ ([("a.py", [1, 0]), ("b.py", [0, 1]),
      ("c.py", [9/10, 1/10])] : List (String × List ℝ)),
      (it.2).length = ([1, 0] : List ℝ).length := by
    intro it hit
    fin_cases hit <;> rfl
  have hscore := scoreItems_eq_map [1, 0] _ hdim
  simp only [List.map_cons, List.map_nil] at hscore
  rw [hsa, hsb, hsc] at hscore
  have e2 : insertDesc ("b.py", some (0 : ℝ))
      [("c.py", some (9/10 / Real.sqrt (82/100)))] =
      [("c.py", some (9/10 / Real.sqrt (82/100))), ("b.py", some 0)] := by
    rw [insertDesc_cons_of_lt ("b.py", some (0 : ℝ))
      ("c.py", some (9/10 / Real.sqrt (82/100))) [] hscpos, insertDesc_nil]
  have e3 : insertDesc ("a.py", some (1 : ℝ))
      [("c.py", some (9/10 / Real.sqrt (82/100))), ("b.py", some 0)] =
      [("a.py", some 1), ("c.py", some (9/10 / Real.sqrt (82/100))),
        ("b.py", some 0)] := by
    rw [insertDesc_cons_of_not_lt ("a.py", some (1 : ℝ))
      ("c.py", some (9/10 / Real.sqrt (82/100))) [("b.py", some 0)]
      (not_lt.mpr (le_of_lt hlt1))]
  have hsort : insertionSortDesc [("a.py", some (1 : ℝ)), ("b.py", some 0),
      ("c.py", some (9/10 / Real.sqrt (82/100)))] =
      [("a.py", some 1), ("c.py", some (9/10 / Real.sqrt (82/100))),
        ("b.py", some 0)] := by
    simp only [insertionSortDesc]
    rw [insertDesc_nil, e2, e3]
  refine ⟨9/10 / Real.sqrt (82/100), ?_, ?_⟩
  · simp only [find_relevant_files, hscore]
    rw [hsort, pyTake, if_pos (by decide : (0 : ℤ) ≤ 2)]
    rfl
  · rw [abs_lt]
    constructor
    · have hlow : (993/1000 : ℝ) < 9/10 / Real.sqrt (82/100) := by
        rw [lt_div_iff₀ hcpos]
        nlinarith [hub]
      linarith
    · have hhigh : (9/10 : ℝ) / Real.sqrt (82/100) < 995/1000 := by
        rw [div_lt_iff₀ hcpos]
        nlinarith [hlb]
      linarith

/-- C10: the query-resolution step treats a query as a file reference
exactly when it ends with ".txt": such a query is always replaced by the
contents of the file at that path, failing fatally when the file is
unreadable; every other query string resolves to itself as literal text,
with the same outcome under every file system, so it is never read from
disk. -/
theorem c10_txt_suffix_file_indirection :
    (∀ (readFile : String → Option String) (q c : String),
        pyEndsWith q ".txt" = true → readFile q = some c →
        resolve_query_text readFile q = Except.ok c) ∧
    (∀ (readFile : String → Option String) (q : String),
        pyEndsWith q ".txt" = true → readFile q = none →
        ∃ e, resolve_query_text readFile q = Except.error e) ∧
    (∀ (readFile readFile₂ : String → Option String) (q : String),
        pyEndsWith q ".txt" = false →
        resolve_query_text readFile q = Except.ok q ∧
        resolve_query_text readFile q = resolve_query_text readFile₂ q) := by
  refine ⟨?_, ?_, ?_⟩
  · intro f q c hq hf
    simp [resolve_query_text, hq, hf]
  · intro f q hq hf
    exact ⟨"could not read query file", by simp [resolve_query_text, hq, hf]⟩
  · intro f g q hq
    constructor <;> simp [resolve_query_text, hq]

/-- Witness for C10: "a.txt" is read from the file map while "b.py" passes
through as literal text. -/
theorem c10_txt_suffix_file_indirection_witness :
    (pyEndsWith "a.txt" ".txt" = true) ∧ (pyEndsWith "b.py" ".txt" = false) ∧
    resolve_query_text
      (fun s => if s = "a.txt" then some "hello" else none) "a.txt" =
      Except.ok "hello" ∧
    resolve_query_text (fun _ => none) "b.py" = Except.ok "b.py" := by
  have h1 : pyEndsWith "a.txt" ".txt" = true := by decide
  have h2 : pyEndsWith "b.py" ".txt" = false := by decide
  refine ⟨h1, h2, ?_, ?_⟩
  · exact c10_txt_suffix_file_indirection.1
      (fun s => if s = "a.txt" then some "hello" else none) "a.txt" "hello"
      h1 (by simp)
  · exact (c10_txt_suffix_file_indirection.2.2
      (fun _ => none) (fun _ => none) "b.py" h2).1

end CodegenQuery
